import Mathlib

/-!
Shallow embedding of the Event / EventScheduler core of `src/main.js`.

Strings are modelled as `List Char` (`Str`).  JavaScript `Date` objects are
modelled by `JSDate`, whose `time` field is `some t` (milliseconds since the
epoch) for a valid date and `none` for an invalid date (a `Date` whose time
value is `NaN`).  Dynamically-typed arguments of the API are modelled by
`JSVal`, with a `str` case, a `date` case, and an `other` case standing for
every value that is neither a string nor a `Date` instance.  Fallible
operations return `Except Err _`; each `Err` constructor tags one distinct
`throw new TypeError(...)` site of the source.  Mutators of `Event` are
translated in state-passing style (`Except Err Unit × Event`): a throw site
reached before the assignment returns the event unchanged, exactly as the
JavaScript `throw` leaves the object untouched.
-/

/-- Strings of the model: lists of characters. -/
abbrev Str := List Char

/-- Whitespace test used by the model of `String.prototype.trim`. -/
def isWS (c : Char) : Bool := c.isWhitespace

/-- Model of `s.trim()`: drop whitespace from both ends. -/
def trimL (s : Str) : Str :=
  ((s.dropWhile isWS).reverse.dropWhile isWS).reverse

/-- Model of `s.toLowerCase()`: character-wise lowercasing. -/
def lowerL (s : Str) : Str := s.map Char.toLower

/-- Model of `String.prototype.startsWith` on character lists
(auxiliary for substring containment). -/
def isPrefixOfL : Str → Str → Bool
  | [], _ => true
  | _ :: _, [] => false
  | a :: as, b :: bs => a == b && isPrefixOfL as bs

/-- Model of `s.includes(t)`: `t` occurs contiguously inside `s`. -/
def containsSub : Str → Str → Bool
  | [], t => isPrefixOfL t []
  | s@(_ :: rest), t => isPrefixOfL t s || containsSub rest t

/-- A JavaScript `Date` object: `time = some t` for a valid date with time
value `t` in milliseconds, `time = none` for an invalid date (`NaN`). -/
structure JSDate where
  time : Option Int
deriving DecidableEq, Repr

/-- Milliseconds in a day, used by the model of `toDateString`. -/
def msPerDay : Int := 86400000

/-- Model of `d.toDateString()`, reduced to the information the source
compares: the calendar day (`some (floor-div of the time value by one day)`)
for a valid date, `none` standing for the string `"Invalid Date"`. -/
def toDateStringD (d : JSDate) : Option Int :=
  d.time.map (fun t => Int.fdiv t msPerDay)

/-- A dynamically-typed JavaScript argument: a string, a `Date` instance, or
anything else. -/
inductive JSVal where
  | str (s : Str)
  | date (d : JSDate)
  | other
deriving DecidableEq, Repr

/-- Error values; each constructor tags one distinct
`throw new TypeError(...)` site of `src/main.js`. -/
inductive Err where
  /-- `'Event title must be a non-empty string'` -/
  | invalidTitle
  /-- `'Invalid date provided'` -/
  | invalidDate
  /-- `'Attendee must be a non-empty string'` -/
  | invalidAttendee
  /-- `'Search term must be a string'` -/
  | invalidSearchTerm
deriving DecidableEq, Repr

/-- Equality of `Except` results is decidable, so concrete runs of the
fallible operations can be checked by evaluation. -/
instance {ε α : Type} [DecidableEq ε] [DecidableEq α] : DecidableEq (Except ε α) :=
  fun x y =>
    match x, y with
    | .error a, .error b =>
      if h : a = b then .isTrue (by rw [h])
      else .isFalse (by intro he; cases he; exact h rfl)
    | .error _, .ok _ => .isFalse (fun h => Except.noConfusion h)
    | .ok _, .error _ => .isFalse (fun h => Except.noConfusion h)
    | .ok a, .ok b =>
      if h : a = b then .isTrue (by rw [h])
      else .isFalse (by intro he; cases he; exact h rfl)

/-- Model of `Set.prototype.add` on the insertion-ordered list of a JS `Set`:
append unless already present. -/
def insertSet (l : List Str) (x : Str) : List Str :=
  if x ∈ l then l else l ++ [x]

/-- Model of `new Set(xs)` for a list of strings: insert one by one. -/
def setFromList (xs : List Str) : List Str :=
  xs.foldl insertSet []

/-- An `Event` of `src/main.js`.  `id` models the `Symbol('eventId')` token
(spec §9: any unique token scheme suffices).  `date` stores the time value in
milliseconds; the constructor and the date setter only ever store a valid
date, so the field is a plain `Int`.  `attendees` is the insertion-ordered
element list of the private `Set`. -/
structure Event where
  id : Nat
  title : Str
  date : Int
  attendees : List Str
deriving DecidableEq, Repr

namespace Event

/-- The `constructor(title, date, attendees = [])` of class `Event`: checks
`typeof title !== 'string' || title.trim() === ''`, then
`!(date instanceof Date) || isNaN(date)`, then initialises the fields with
`new Set(attendees)` for the attendee set.  `freshId` models the fresh
`Symbol('eventId')`. -/
def construct (freshId : Nat) (title date : JSVal) (attendees : List Str) :
    Except Err Event :=
  match title with
  | .str t =>
    if trimL t = [] then .error .invalidTitle
    else
      match date with
      | .date ⟨some ms⟩ => .ok ⟨freshId, t, ms, setFromList attendees⟩
      | .date ⟨none⟩ => .error .invalidDate
      | _ => .error .invalidDate
  | _ => .error .invalidTitle

/-- The `title` setter: validate, then assign the (untrimmed) argument. -/
def setTitle (e : Event) (v : JSVal) : Except Err Unit × Event :=
  match v with
  | .str t =>
    if trimL t = [] then (.error .invalidTitle, e)
    else (.ok (), { e with title := t })
  | _ => (.error .invalidTitle, e)

/-- The `date` setter: validate (`instanceof Date` and not `NaN`), then
assign the time value. -/
def setDate (e : Event) (v : JSVal) : Except Err Unit × Event :=
  match v with
  | .date ⟨some ms⟩ => (.ok (), { e with date := ms })
  | .date ⟨none⟩ => (.error .invalidDate, e)
  | _ => (.error .invalidDate, e)

/-- `addAttendee(attendee)`: validate, then `this.#attendees.add(attendee)`. -/
def addAttendee (e : Event) (v : JSVal) : Except Err Unit × Event :=
  match v with
  | .str a =>
    if trimL a = [] then (.error .invalidAttendee, e)
    else (.ok (), { e with attendees := insertSet e.attendees a })
  | _ => (.error .invalidAttendee, e)

end Event

/-! ### The JS `Map` held in `EventScheduler.#events`

A `Map` is modelled by its insertion-ordered association list.  `mapSet`
replaces the value in place when the key exists and appends otherwise;
`mapGet` returns the value of the first matching entry; `mapDelete` removes
the first matching entry and reports whether one was removed — on every
state reachable through the API the keys are distinct, so "first matching"
is "the" entry. -/

/-- Model of `Map.prototype.set`. -/
def mapSet (l : List (Nat × Event)) (k : Nat) (e : Event) : List (Nat × Event) :=
  match l with
  | [] => [(k, e)]
  | (k', e') :: rest =>
    if k' = k then (k, e) :: rest else (k', e') :: mapSet rest k e

/-- Model of `Map.prototype.get` (`undefined`, i.e. `none`, when absent). -/
def mapGet (l : List (Nat × Event)) (k : Nat) : Option Event :=
  match l with
  | [] => none
  | (k', e') :: rest => if k' = k then some e' else mapGet rest k

/-- Model of `Map.prototype.delete`: the returned `Bool` is the deletion
result, the list is the map afterwards. -/
def mapDelete (l : List (Nat × Event)) (k : Nat) : Bool × List (Nat × Event) :=
  match l with
  | [] => (false, [])
  | (k', e') :: rest =>
    if k' = k then (true, rest)
    else
      let r := mapDelete rest k
      (r.1, (k', e') :: r.2)

/-- The `EventScheduler` class: its single private field `#events`. -/
structure EventScheduler where
  events : List (Nat × Event)
deriving DecidableEq, Repr

namespace EventScheduler

/-- `new EventScheduler()`. -/
def empty : EventScheduler := ⟨[]⟩

/-- `addEvent(event)`: `this.#events.set(event.id, event)`.  The
`instanceof Event` guard of the source is subsumed by the argument type. -/
def addEvent (s : EventScheduler) (e : Event) : EventScheduler :=
  ⟨mapSet s.events e.id e⟩

/-- `removeEvent(eventId)`: `return this.#events.delete(eventId)`. -/
def removeEvent (s : EventScheduler) (k : Nat) : Bool × EventScheduler :=
  let r := mapDelete s.events k
  (r.1, ⟨r.2⟩)

/-- `getEvent(eventId)`: `return this.#events.get(eventId)`. -/
def getEvent (s : EventScheduler) (k : Nat) : Option Event :=
  mapGet s.events k

/-- One step of the sort of `getAllEvents`: insert an event into an already
sorted list, before the first strictly later event.  An element with an
equal date stays in front, which is the stable tie-break ECMAScript
guarantees for `Array.prototype.sort`. -/
def sortInsert (e : Event) : List Event → List Event
  | [] => [e]
  | f :: fs => if f.date ≤ e.date then f :: sortInsert e fs else e :: f :: fs

/-- Model of `Array.from(this.#events.values()).sort((a, b) => a.date - b.date)`:
a stable ascending sort by date.  All stable sorts agree on the result for
the total preorder the comparator induces, so insertion sort is a faithful
model of the engine's sort. -/
def sortByDate : List Event → List Event
  | [] => []
  | e :: rest => sortInsert e (sortByDate rest)

/-- The values of the map in insertion order, `this.#events.values()`. -/
def valuesOf (s : EventScheduler) : List Event :=
  s.events.map Prod.snd

/-- `getAllEvents()`. -/
def getAllEvents (s : EventScheduler) : List Event :=
  sortByDate (valuesOf s)

/-- `getEventsOnDate(date)`: throws when `!(date instanceof Date)` (and only
then), otherwise filters `getAllEvents()` by equality of `toDateString()`
results.  Note the source does not test `isNaN(date)` here. -/
def getEventsOnDate (s : EventScheduler) (v : JSVal) : Except Err (List Event) :=
  match v with
  | .date d =>
    .ok ((getAllEvents s).filter
      (fun e => toDateStringD ⟨some e.date⟩ = toDateStringD d))
  | _ => .error .invalidDate

/-- `findEventsByTitle(searchTerm)`: throws when the argument is not a
string, otherwise filters `getAllEvents()` by case-insensitive substring
containment of the term in the title. -/
def findEventsByTitle (s : EventScheduler) (v : JSVal) : Except Err (List Event) :=
  match v with
  | .str searchTerm =>
    let term := lowerL searchTerm
    .ok ((getAllEvents s).filter (fun e => containsSub (lowerL e.title) term))
  | _ => .error .invalidSearchTerm

/-- `getTotalEvents()`: `return this.#events.size`. -/
def getTotalEvents (s : EventScheduler) : Nat :=
  s.events.length

/-- `getAllAttendees()`: fold `attendeesSet.add(attendee)` over the events in
the map's insertion order (`this.#events.values()`) and, inside each event,
over its attendees in their insertion order. -/
def getAllAttendees (s : EventScheduler) : List Str :=
  (valuesOf s).foldl (fun acc e => e.attendees.foldl insertSet acc) []

end EventScheduler

/-! ### Derived notions used to state the claims -/

/-- The concatenation of the attendee lists of a list of events, in order. -/
def attendeeNames : List Event → List Str
  | [] => []
  | e :: rest => e.attendees ++ attendeeNames rest

/-- Keep the first occurrence of each element, skipping elements already
`seen`. -/
def dedupFirstAux (seen : List Str) : List Str → List Str
  | [] => []
  | a :: l =>
    if a ∈ seen then dedupFirstAux seen l
    else a :: dedupFirstAux (a :: seen) l

/-- Keep the first occurrence of each element of a list. -/
def dedupFirst (l : List Str) : List Str := dedupFirstAux [] l

/-- Modelled from the spec's words for `getAllAttendees` (§4.2): "the set
(deduplicated) of every attendee name across every owned Event, returned as
a sequence in first-seen order across events in ascending-date order" — the
events are visited in the order of `getAllEvents()`, not in the map's
insertion order.  To be compared with `EventScheduler.getAllAttendees`,
which is translated from the source. -/
def getAllAttendeesSpecOrder (s : EventScheduler) : List Str :=
  dedupFirst (attendeeNames s.getAllEvents)

/-- The validity test the title sites of the source apply to their argument:
a string that is non-empty after trimming. -/
def isValidTitleArg : JSVal → Bool
  | .str t => if trimL t = [] then false else true
  | _ => false

/-- The validity test the date sites `Event.constructor` and `set date`
apply: a `Date` instance whose time value is not `NaN`. -/
def isValidDateArg : JSVal → Bool
  | .date ⟨some _⟩ => true
  | _ => false

/-- The validity test `addAttendee` applies: a string that is non-empty
after trimming. -/
def isValidAttendeeArg : JSVal → Bool
  | .str a => if trimL a = [] then false else true
  | _ => false

namespace EventScheduler

/-! State-passing translations of the query methods, making the scheduler
state they leave behind explicit.  `Array.from(...)` copies the map's
values into a fresh array, so the in-place `sort` of `getAllEvents` acts on
that copy and `#events` itself is never written. -/

/-- State-passing `getAllEvents()`. -/
def getAllEventsS (s : EventScheduler) : List Event × EventScheduler :=
  let copy := s.events.map Prod.snd
  (sortByDate copy, s)

/-- State-passing `getEventsOnDate(date)`. -/
def getEventsOnDateS (s : EventScheduler) (v : JSVal) :
    Except Err (List Event) × EventScheduler :=
  (s.getEventsOnDate v, s)

/-- State-passing `findEventsByTitle(searchTerm)`. -/
def findEventsByTitleS (s : EventScheduler) (v : JSVal) :
    Except Err (List Event) × EventScheduler :=
  (s.findEventsByTitle v, s)

/-- State-passing `getTotalEvents()`. -/
def getTotalEventsS (s : EventScheduler) : Nat × EventScheduler :=
  (s.events.length, s)

/-- State-passing `getAllAttendees()`. -/
def getAllAttendeesS (s : EventScheduler) : List Str × EventScheduler :=
  (s.getAllAttendees, s)

end EventScheduler

/-! ### Concrete sample data for counterexamples and witnesses -/

/-- An event with the later date but the earlier map-insertion position. -/
def evC1a : Event := ⟨1, ['E'], 100, setFromList [['B']]⟩

/-- An event with the earlier date but the later map-insertion position. -/
def evC1b : Event := ⟨2, ['F'], 50, setFromList [['A']]⟩

/-- A scheduler whose map insertion order disagrees with ascending-date
order. -/
def schedC1 : EventScheduler :=
  (EventScheduler.empty.addEvent evC1a).addEvent evC1b

/-- A valid event used to probe `getEventsOnDate` with an invalid date. -/
def evC3 : Event := ⟨1, ['M'], 0, []⟩

/-- A one-event scheduler. -/
def schedC3 : EventScheduler := EventScheduler.empty.addEvent evC3

/-! ### Helper lemmas: JS `Set` insertion and first-seen deduplication -/

theorem mem_insertSet (l : List Str) (x y : Str) :
    y ∈ insertSet l x ↔ y ∈ l ∨ y = x := by
  by_cases hx : x ∈ l
  · simp only [insertSet, if_pos hx]
    exact ⟨Or.inl, fun h => h.elim id (fun h' => h' ▸ hx)⟩
  · simp [insertSet, if_neg hx]

theorem nodup_insertSet (l : List Str) (x : Str) (h : l.Nodup) :
    (insertSet l x).Nodup := by
  by_cases hx : x ∈ l
  · simpa [insertSet, if_pos hx] using h
  · rw [insertSet, if_neg hx]
    refine List.Nodup.append h (List.nodup_singleton x) ?_
    intro a ha hax
    rw [List.mem_singleton] at hax
    exact hx (hax ▸ ha)

theorem mem_dedupFirstAux (x : Str) :
    ∀ (l seen : List Str), x ∈ dedupFirstAux seen l ↔ x ∈ l ∧ x ∉ seen := by
  intro l
  induction l with
  | nil => intro seen; simp [dedupFirstAux]
  | cons a l ih =>
    intro seen
    by_cases ha : a ∈ seen
    · rw [dedupFirstAux, if_pos ha, ih seen]
      constructor
      · exact fun h => ⟨List.mem_cons_of_mem a h.1, h.2⟩
      · rintro ⟨h1, h2⟩
        rcases List.mem_cons.mp h1 with rfl | h1
        · exact absurd ha h2
        · exact ⟨h1, h2⟩
    · rw [dedupFirstAux, if_neg ha]
      simp only [List.mem_cons, ih]
      constructor
      · rintro (rfl | ⟨h1, h2⟩)
        · exact ⟨Or.inl rfl, ha⟩
        · exact ⟨Or.inr h1, fun hs => h2 (Or.inr hs)⟩
      · rintro ⟨rfl | h1, h2⟩
        · exact Or.inl rfl
        · by_cases hxa : x = a
          · exact Or.inl hxa
          · exact Or.inr ⟨h1, fun hs => hs.elim hxa h2⟩

theorem nodup_dedupFirstAux : ∀ (l seen : List Str), (dedupFirstAux seen l).Nodup := by
  intro l
  induction l with
  | nil => intro seen; simp [dedupFirstAux]
  | cons a l ih =>
    intro seen
    by_cases ha : a ∈ seen
    · rw [dedupFirstAux, if_pos ha]; exact ih seen
    · rw [dedupFirstAux, if_neg ha]
      refine List.nodup_cons.mpr ⟨?_, ih _⟩
      intro hmem
      exact ((mem_dedupFirstAux a l (a :: seen)).mp hmem).2 (List.mem_cons_self a seen)

theorem dedupFirstAux_congr :
    ∀ (l s1 s2 : List Str), (∀ x, x ∈ s1 ↔ x ∈ s2) →
      dedupFirstAux s1 l = dedupFirstAux s2 l := by
  intro l
  induction l with
  | nil => intro s1 s2 _; rfl
  | cons a l ih =>
    intro s1 s2 h
    by_cases ha : a ∈ s1
    · rw [dedupFirstAux, if_pos ha, dedupFirstAux, if_pos ((h a).mp ha)]
      exact ih s1 s2 h
    · rw [dedupFirstAux, if_neg ha, dedupFirstAux, if_neg (fun h2 => ha ((h a).mpr h2))]
      rw [ih (a :: s1) (a :: s2) (by intro x; simp [List.mem_cons, h x])]

theorem foldl_insertSet_eq :
    ∀ (l acc : List Str), l.foldl insertSet acc = acc ++ dedupFirstAux acc l := by
  intro l
  induction l with
  | nil => intro acc; simp [dedupFirstAux]
  | cons a l ih =>
    intro acc
    by_cases ha : a ∈ acc
    · rw [List.foldl_cons, show insertSet acc a = acc from if_pos ha, ih acc,
        dedupFirstAux, if_pos ha]
    · rw [List.foldl_cons, show insertSet acc a = acc ++ [a] from if_neg ha,
        ih (acc ++ [a]), dedupFirstAux, if_neg ha,
        dedupFirstAux_congr l (acc ++ [a]) (a :: acc)
          (by intro x; simp [List.mem_append, List.mem_cons]; tauto)]
      simp

theorem nodup_setFromList (xs : List Str) : (setFromList xs).Nodup := by
  rw [setFromList, foldl_insertSet_eq]
  simpa using nodup_dedupFirstAux xs []

theorem mem_setFromList (xs : List Str) (x : Str) :
    x ∈ setFromList xs ↔ x ∈ xs := by
  rw [setFromList, foldl_insertSet_eq]
  simp [mem_dedupFirstAux]

theorem foldl_insertSet_attendeeNames :
    ∀ (es : List Event) (acc : List Str),
      es.foldl (fun acc e => e.attendees.foldl insertSet acc) acc =
        (attendeeNames es).foldl insertSet acc := by
  intro es
  induction es with
  | nil => intro acc; rfl
  | cons e es ih =>
    intro acc
    rw [List.foldl_cons, ih, attendeeNames, List.foldl_append]

/-! ### Helper lemmas: substring containment -/

theorem containsSub_nil : ∀ s : Str, containsSub s [] = true
  | [] => rfl
  | _ :: _ => rfl

/-! ### Helper lemmas: the stable insertion sort of `getAllEvents` -/

theorem mem_sortInsert (e x : Event) :
    ∀ l : List Event, x ∈ EventScheduler.sortInsert e l ↔ x = e ∨ x ∈ l := by
  intro l
  induction l with
  | nil => simp [EventScheduler.sortInsert]
  | cons f fs ih =>
    by_cases h : f.date ≤ e.date
    · rw [EventScheduler.sortInsert, if_pos h]
      simp only [List.mem_cons, ih]
      tauto
    · rw [EventScheduler.sortInsert, if_neg h]
      simp [List.mem_cons]

theorem pairwise_sortInsert (e : Event) :
    ∀ l : List Event, l.Pairwise (fun a b => a.date ≤ b.date) →
      (EventScheduler.sortInsert e l).Pairwise (fun a b => a.date ≤ b.date) := by
  intro l
  induction l with
  | nil => intro _; simp [EventScheduler.sortInsert]
  | cons f fs ih =>
    intro h
    rcases List.pairwise_cons.mp h with ⟨hf, hfs⟩
    by_cases hle : f.date ≤ e.date
    · rw [EventScheduler.sortInsert, if_pos hle]
      refine List.pairwise_cons.mpr ⟨?_, ih hfs⟩
      intro x hx
      rcases (mem_sortInsert e x fs).mp hx with rfl | hx
      · exact hle
      · exact hf x hx
    · rw [EventScheduler.sortInsert, if_neg hle]
      have hef : e.date ≤ f.date := by omega
      refine List.pairwise_cons.mpr ⟨?_, h⟩
      intro x hx
      rcases List.mem_cons.mp hx with rfl | hx
      · exact hef
      · exact le_trans hef (hf x hx)

theorem pairwise_sortByDate :
    ∀ l : List Event, (EventScheduler.sortByDate l).Pairwise (fun a b => a.date ≤ b.date) := by
  intro l
  induction l with
  | nil => simp [EventScheduler.sortByDate]
  | cons e l ih =>
    rw [EventScheduler.sortByDate]
    exact pairwise_sortInsert e _ ih

/-! ### Helper lemmas: the `Map` model -/

theorem mapGet_mapSet_self (k : Nat) (e : Event) :
    ∀ l, mapGet (mapSet l k e) k = some e := by
  intro l
  induction l with
  | nil => simp [mapSet, mapGet]
  | cons p rest ih =>
    obtain ⟨k', e'⟩ := p
    by_cases h : k' = k <;> simp [mapSet, mapGet, h, ih]

theorem mapGet_eq_none_of_not_mem (k : Nat) :
    ∀ l : List (Nat × Event), k ∉ l.map Prod.fst → mapGet l k = none := by
  intro l
  induction l with
  | nil => intro _; rfl
  | cons p rest ih =>
    obtain ⟨k', e'⟩ := p
    intro h
    simp only [List.map_cons, List.mem_cons] at h
    push_neg at h
    rw [mapGet, if_neg (fun he => h.1 he.symm)]
    exact ih h.2

theorem mapDelete_of_get_none (k : Nat) :
    ∀ l : List (Nat × Event), mapGet l k = none → mapDelete l k = (false, l) := by
  intro l
  induction l with
  | nil => intro _; rfl
  | cons p rest ih =>
    obtain ⟨k', e'⟩ := p
    intro h
    by_cases hk : k' = k
    · rw [mapGet, if_pos hk] at h
      exact absurd h (by simp)
    · rw [mapGet, if_neg hk] at h
      simp [mapDelete, hk, ih h]

theorem mapDelete_of_get_some (k : Nat) (e : Event) :
    ∀ l : List (Nat × Event), mapGet l k = some e →
      (mapDelete l k).1 = true ∧ (mapDelete l k).2.length + 1 = l.length := by
  intro l
  induction l with
  | nil => intro h; simp [mapGet] at h
  | cons p rest ih =>
    obtain ⟨k', e'⟩ := p
    intro h
    by_cases hk : k' = k
    · simp [mapDelete, hk]
    · rw [mapGet, if_neg hk] at h
      have h2 := ih h
      simp only [mapDelete, if_neg hk, List.length_cons]
      exact ⟨h2.1, by omega⟩

theorem mapGet_mapDelete_ne (k k' : Nat) (hne : k' ≠ k) :
    ∀ l : List (Nat × Event), mapGet (mapDelete l k).2 k' = mapGet l k' := by
  intro l
  induction l with
  | nil => rfl
  | cons p rest ih =>
    obtain ⟨k1, e1⟩ := p
    by_cases hk : k1 = k
    · subst hk
      simp [mapDelete, mapGet, Ne.symm hne]
    · by_cases hk' : k1 = k'
      · subst hk'
        simp [mapDelete, mapGet, hk]
      · simp [mapDelete, mapGet, hk, hk', ih]

theorem mapGet_mapDelete_self (k : Nat) :
    ∀ l : List (Nat × Event), (l.map Prod.fst).Nodup →
      mapGet (mapDelete l k).2 k = none := by
  intro l
  induction l with
  | nil => intro _; rfl
  | cons p rest ih =>
    obtain ⟨k1, e1⟩ := p
    intro hnd
    simp only [List.map_cons, List.nodup_cons] at hnd
    by_cases hk : k1 = k
    · subst hk
      simpa [mapDelete] using mapGet_eq_none_of_not_mem k1 rest (by
        intro hmem
        exact hnd.1 (by simpa using hmem))
    · simp [mapDelete, mapGet, hk, ih hnd.2]

/-! ## The claims -/

/-- C1 (counterexample): the claim is false as stated.  In a scheduler
holding an event with the later date but the earlier insertion position,
`getAllAttendees()` lists that event's attendee first — it walks
`this.#events.values()` in the map's insertion order, not in the
ascending-date order of `getAllEvents()`, which would list the other
attendee first. -/
theorem C1_getAllAttendees_order_cex :
    schedC1.getAllAttendees = [['B'], ['A']] ∧
    getAllAttendeesSpecOrder schedC1 = [['A'], ['B']] ∧
    schedC1.getAllAttendees ≠ getAllAttendeesSpecOrder schedC1 := by
  decide

/-- C1 (amended): `getAllAttendees()` returns the deduplicated set of every
attendee name across every owned Event, as a sequence in first-seen order
where events are visited in the map's insertion order (the order of
`this.#events.values()`), and, within an event, attendees in their insertion
order: it equals the first-occurrence deduplication of the concatenated
attendee lists of the events in insertion order, it has no duplicates, and
it holds exactly the names occurring in some owned event. -/
theorem C1_getAllAttendees_amended (s : EventScheduler) :
    s.getAllAttendees = dedupFirst (attendeeNames s.valuesOf) ∧
    s.getAllAttendees.Nodup ∧
    ∀ x, x ∈ s.getAllAttendees ↔ x ∈ attendeeNames s.valuesOf := by
  have h : s.getAllAttendees = dedupFirst (attendeeNames s.valuesOf) := by
    rw [EventScheduler.getAllAttendees, foldl_insertSet_attendeeNames,
      foldl_insertSet_eq]
    simp [dedupFirst]
  refine ⟨h, ?_, ?_⟩
  · rw [h]
    exact nodup_dedupFirstAux _ _
  · intro x
    rw [h, dedupFirst, mem_dedupFirstAux]
    simp

/-- C3 (code bug): `getEventsOnDate` only tests `instanceof Date`, not
`isNaN(date)`, so an invalid `Date` object (e.g. `new Date("not-a-date")`,
modelled by `time = none`) is not rejected: the call returns `[]` instead of
throwing, while the `Event` constructor rejects the very same value. -/
theorem C3_getEventsOnDate_invalid_date_not_rejected :
    schedC3.getEventsOnDate (.date ⟨none⟩) = .ok [] ∧
    Event.construct 2 (.str ['M']) (.date ⟨none⟩) [] = .error .invalidDate := by
  decide

/-- C4: `getAllEvents()` returns the owned events sorted ascending by date:
for every pair of returned events with `a` positioned before `b`,
`a.date ≤ b.date`. -/
theorem C4_getAllEvents_sorted (s : EventScheduler) :
    s.getAllEvents.Pairwise (fun a b => a.date ≤ b.date) :=
  pairwise_sortByDate _

/-- Inversion of a successful `Event` construction: the title argument was a
string, non-empty after trimming, the date argument a valid `Date`, and the
fields are the stored arguments with the attendee list deduplicated. -/
theorem construct_ok_inv (freshId : Nat) (tv dv : JSVal) (atts : List Str)
    (ev : Event) (hok : Event.construct freshId tv dv atts = .ok ev) :
    ∃ t ms, tv = .str t ∧ trimL t ≠ [] ∧ dv = .date ⟨some ms⟩ ∧
      ev = ⟨freshId, t, ms, setFromList atts⟩ := by
  cases tv with
  | str t =>
    by_cases ht : trimL t = []
    · simp [Event.construct, ht] at hok
    · cases dv with
      | str u => simp [Event.construct, ht] at hok
      | other => simp [Event.construct, ht] at hok
      | date d =>
        obtain ⟨_ | ms⟩ := d
        · simp [Event.construct, ht] at hok
        · refine ⟨t, ms, rfl, ht, rfl, ?_⟩
          simp only [Event.construct, if_neg ht] at hok
          exact (Except.ok.inj hok).symm
  | date d => simp [Event.construct] at hok
  | other => simp [Event.construct] at hok

/-- C2 (counterexample): the claim is false as stated.  The constructor does
not validate its initial attendees argument: constructing an event with the
initial attendees list `[""]` succeeds and stores the empty string — an
empty (whitespace-only) name — in the attendees collection. -/
theorem C2_constructor_empty_attendee_cex :
    Event.construct 0 (.str ['T']) (.date ⟨some 0⟩) [[]] =
      .ok ⟨0, ['T'], 0, [([] : Str)]⟩ ∧
    ([] : Str) ∈ (Event.mk 0 ['T'] 0 [([] : Str)]).attendees ∧
    trimL ([] : Str) = [] := by
  decide

/-- C2 (amended): the attendees collection never contains the same name
twice — the constructor deduplicates the initial list and `addAttendee` has
set semantics, both preserving `Nodup` — and `addAttendee` alone also
establishes and preserves the no-empty/whitespace-only invariant; the
constructor, however, stores its initial attendees unvalidated, so the
no-empty part holds for a constructed event only when every element of the
initial attendees argument is non-empty after trimming (every stored
attendee comes from that argument). -/
theorem C2_attendees_invariant_amended (freshId : Nat) (tv dv : JSVal)
    (atts : List Str) (e : Event) (v : JSVal) :
    (∀ ev, Event.construct freshId tv dv atts = .ok ev →
      ev.attendees.Nodup ∧ ∀ x ∈ ev.attendees, x ∈ atts) ∧
    (e.attendees.Nodup → ((e.addAttendee v).2).attendees.Nodup) ∧
    ((∀ x ∈ e.attendees, trimL x ≠ []) →
      ∀ x ∈ ((e.addAttendee v).2).attendees, trimL x ≠ []) := by
  refine ⟨?_, ?_, ?_⟩
  · intro ev hok
    obtain ⟨t, ms, _, _, _, rfl⟩ := construct_ok_inv _ _ _ _ _ hok
    exact ⟨nodup_setFromList atts, fun x hx => (mem_setFromList atts x).mp hx⟩
  · intro hnd
    cases v with
    | str a =>
      by_cases ha : trimL a = []
      · simpa [Event.addAttendee, ha] using hnd
      · simpa [Event.addAttendee, ha] using nodup_insertSet e.attendees a hnd
    | date d => simpa [Event.addAttendee] using hnd
    | other => simpa [Event.addAttendee] using hnd
  · intro hall x hx
    cases v with
    | str a =>
      by_cases ha : trimL a = []
      · simp [Event.addAttendee, ha] at hx
        exact hall x hx
      · simp only [Event.addAttendee, if_neg ha] at hx
        rcases (mem_insertSet e.attendees a x).mp hx with h | rfl
        · exact hall x h
        · exact ha
    | date d =>
      simp [Event.addAttendee] at hx
      exact hall x hx
    | other =>
      simp [Event.addAttendee] at hx
      exact hall x hx

/-- C2 (witness): adding a duplicate name keeps the list duplicate-free, and
adding a fresh non-empty name preserves the no-empty invariant, on a
concrete event; the constructor part is witnessed on a duplicated initial
list. -/
theorem C2_attendees_invariant_amended_witness :
    (Event.mk 3 ['T'] 0 [['A']]).attendees.Nodup ∧
    (∀ x ∈ ((Event.mk 3 ['T'] 0 [['A']]).addAttendee (.str ['B'])).2.attendees,
      trimL x ≠ []) := by
  have h := C2_attendees_invariant_amended 3 (.str ['T']) (.date ⟨some 0⟩)
    [['A'], ['A']] (Event.mk 3 ['T'] 0 [['A']]) (.str ['B'])
  exact ⟨(h.1 (Event.mk 3 ['T'] 0 [['A']]) (by decide)).1, h.2.2 (by decide)⟩

/-- C5: `findEventsByTitle(term)` throws the search-term validation error
exactly when `term` is not a string; on a string it returns a subsequence of
`getAllEvents()` holding exactly the events whose lowercased title contains
the lowercased term; and with the empty string it returns all of
`getAllEvents()`. -/
theorem C5_findEventsByTitle (s : EventScheduler) (v : JSVal) (t : Str) :
    ((∀ u, v ≠ JSVal.str u) → s.findEventsByTitle v = .error .invalidSearchTerm) ∧
    (∀ l, s.findEventsByTitle (.str t) = .ok l →
      l.Sublist s.getAllEvents ∧
      ∀ e, e ∈ l ↔
        e ∈ s.getAllEvents ∧ containsSub (lowerL e.title) (lowerL t) = true) ∧
    s.findEventsByTitle (.str []) = .ok s.getAllEvents := by
  refine ⟨?_, ?_, ?_⟩
  · intro h
    cases v with
    | str u => exact absurd rfl (h u)
    | date d => rfl
    | other => rfl
  · intro l hl
    have hl2 : (s.getAllEvents).filter
        (fun e => containsSub (lowerL e.title) (lowerL t)) = l :=
      Except.ok.inj hl
    subst hl2
    refine ⟨List.filter_sublist _, ?_⟩
    intro e
    rw [List.mem_filter]
  · show Except.ok ((s.getAllEvents).filter
      (fun e => containsSub (lowerL e.title) (lowerL []))) =
      Except.ok s.getAllEvents
    exact congrArg Except.ok
      (List.filter_eq_self.mpr (fun a _ => containsSub_nil (lowerL a.title)))

/-- C5 (witness): on a concrete scheduler, a non-string argument is
rejected, the filter characterization holds for the concrete term "e"
(matching only the event titled "E"), and the empty term returns every
event. -/
theorem C5_findEventsByTitle_witness :
    schedC1.findEventsByTitle .other = .error .invalidSearchTerm ∧
    ([evC1a].Sublist schedC1.getAllEvents ∧
      ∀ e, e ∈ [evC1a] ↔
        e ∈ schedC1.getAllEvents ∧
          containsSub (lowerL e.title) (lowerL ['e']) = true) ∧
    schedC1.findEventsByTitle (.str []) = .ok schedC1.getAllEvents := by
  have h := C5_findEventsByTitle schedC1 .other ['e']
  exact ⟨h.1 (fun u hu => JSVal.noConfusion hu), h.2.1 [evC1a] (by decide), h.2.2⟩

/-- C6: immediately after `addEvent(e)`, `getEvent(e.id)` returns that very
event, and `getEvent` on an id with no entry in the mapping returns the
absent value (`none`) — it is total, so it never throws. -/
theorem C6_addEvent_getEvent_roundtrip (s : EventScheduler) (e : Event) (k : Nat) :
    (s.addEvent e).getEvent e.id = some e ∧
    (k ∉ s.events.map Prod.fst → s.getEvent k = none) :=
  ⟨mapGet_mapSet_self e.id e s.events,
    fun h => mapGet_eq_none_of_not_mem k s.events h⟩

/-- C6 (witness): the round trip and the missing-id case on concrete
inputs. -/
theorem C6_addEvent_getEvent_roundtrip_witness :
    (EventScheduler.empty.addEvent evC1a).getEvent 1 = some evC1a ∧
    EventScheduler.empty.getEvent 7 = none := by
  have h := C6_addEvent_getEvent_roundtrip EventScheduler.empty evC1a 7
  exact ⟨h.1, h.2 (by decide)⟩

/-- C7: `removeEvent(id)` on an absent id returns `false`, raises nothing
(it is total), leaves the whole map — hence `getTotalEvents()` — unchanged;
on a present id it returns `true`, decrements `getTotalEvents()` by one,
leaves every other id's entry in place, and (keys being distinct in any
state built through the API) removes exactly the entry of that id. -/
theorem C7_removeEvent_counts (s : EventScheduler) (k : Nat) :
    (s.getEvent k = none →
      (s.removeEvent k).1 = false ∧
      (s.removeEvent k).2 = s ∧
      (s.removeEvent k).2.getTotalEvents = s.getTotalEvents) ∧
    (∀ e, s.getEvent k = some e →
      (s.removeEvent k).1 = true ∧
      (s.removeEvent k).2.getTotalEvents + 1 = s.getTotalEvents ∧
      (∀ k', k' ≠ k → (s.removeEvent k).2.getEvent k' = s.getEvent k') ∧
      ((s.events.map Prod.fst).Nodup → (s.removeEvent k).2.getEvent k = none)) := by
  constructor
  · intro h
    have hd := mapDelete_of_get_none k s.events h
    refine ⟨?_, ?_, ?_⟩
    · show (mapDelete s.events k).1 = false
      rw [hd]
    · show EventScheduler.mk (mapDelete s.events k).2 = s
      rw [hd]
    · show (mapDelete s.events k).2.length = s.events.length
      rw [hd]
  · intro e he
    have hd := mapDelete_of_get_some k e s.events he
    exact ⟨hd.1, hd.2,
      fun k' hk' => mapGet_mapDelete_ne k k' hk' s.events,
      fun hnd => mapGet_mapDelete_self k s.events hnd⟩

/-- C7 (witness): removing an absent id (5) and a present id (1) from a
concrete one-event scheduler. -/
theorem C7_removeEvent_counts_witness :
    (schedC3.removeEvent 5).1 = false ∧
    (schedC3.removeEvent 5).2.getTotalEvents = schedC3.getTotalEvents ∧
    (schedC3.removeEvent 1).1 = true ∧
    (schedC3.removeEvent 1).2.getTotalEvents + 1 = schedC3.getTotalEvents ∧
    (schedC3.removeEvent 1).2.getEvent 1 = none := by
  have h1 := (C7_removeEvent_counts schedC3 5).1 (by decide)
  have h2 := (C7_removeEvent_counts schedC3 1).2 evC3 (by decide)
  exact ⟨h1.1, h1.2.2, h2.1, h2.2.1, h2.2.2.2 (by decide)⟩

/-- C8: every validation error of the three `Event` mutators is raised
before any state mutation: whenever the argument fails the mutator's
validity test, the call returns the error of that mutator's throw site and
the event — title, date and attendees alike — is exactly what it was before
the call. -/
theorem C8_mutators_validate_before_mutation (e : Event) (v : JSVal) :
    (isValidTitleArg v = false →
      (e.setTitle v).1 = .error .invalidTitle ∧ (e.setTitle v).2 = e) ∧
    (isValidDateArg v = false →
      (e.setDate v).1 = .error .invalidDate ∧ (e.setDate v).2 = e) ∧
    (isValidAttendeeArg v = false →
      (e.addAttendee v).1 = .error .invalidAttendee ∧ (e.addAttendee v).2 = e) := by
  refine ⟨?_, ?_, ?_⟩
  · intro h
    cases v with
    | str t =>
      by_cases ht : trimL t = []
      · simp [Event.setTitle, ht]
      · simp [isValidTitleArg, ht] at h
    | date d => simp [Event.setTitle]
    | other => simp [Event.setTitle]
  · intro h
    cases v with
    | str t => simp [Event.setDate]
    | date d =>
      obtain ⟨_ | ms⟩ := d
      · simp [Event.setDate]
      · simp [isValidDateArg] at h
    | other => simp [Event.setDate]
  · intro h
    cases v with
    | str a =>
      by_cases ha : trimL a = []
      · simp [Event.addAttendee, ha]
      · simp [isValidAttendeeArg, ha] at h
    | date d => simp [Event.addAttendee]
    | other => simp [Event.addAttendee]

/-- C8 (witness): feeding a non-string/non-date value to each mutator of a
concrete event throws and leaves the event untouched. -/
theorem C8_mutators_validate_before_mutation_witness :
    (evC3.setTitle .other).1 = .error .invalidTitle ∧
    (evC3.setTitle .other).2 = evC3 ∧
    (evC3.setDate .other).1 = .error .invalidDate ∧
    (evC3.setDate .other).2 = evC3 ∧
    (evC3.addAttendee .other).1 = .error .invalidAttendee ∧
    (evC3.addAttendee .other).2 = evC3 := by
  have h := C8_mutators_validate_before_mutation evC3 .other
  have h1 := h.1 (by decide)
  have h2 := h.2.1 (by decide)
  have h3 := h.2.2 (by decide)
  exact ⟨h1.1, h1.2, h2.1, h2.2, h3.1, h3.2⟩

/-- C9: the constructor and the title setter accept any string with some
non-whitespace character and store it exactly as given, untrimmed; and they
reject (with the title error) precisely the arguments that are not strings
or are empty after trimming. -/
theorem C9_title_stored_untrimmed (freshId : Nat) (t : Str) (ms : Int)
    (atts : List Str) (e : Event) (v : JSVal) :
    (trimL t ≠ [] →
      Event.construct freshId (.str t) (.date ⟨some ms⟩) atts =
        .ok ⟨freshId, t, ms, setFromList atts⟩) ∧
    (trimL t ≠ [] →
      (e.setTitle (.str t)).1 = .ok () ∧ (e.setTitle (.str t)).2.title = t) ∧
    ((e.setTitle v).1 = .error .invalidTitle ↔ isValidTitleArg v = false) ∧
    (Event.construct freshId v (.date ⟨some ms⟩) atts = .error .invalidTitle ↔
      isValidTitleArg v = false) := by
  refine ⟨?_, ?_, ?_, ?_⟩
  · intro ht
    simp [Event.construct, ht]
  · intro ht
    simp [Event.setTitle, ht]
  · cases v with
    | str u =>
      by_cases hu : trimL u = [] <;> simp [Event.setTitle, isValidTitleArg, hu]
    | date d => simp [Event.setTitle, isValidTitleArg]
    | other => simp [Event.setTitle, isValidTitleArg]
  · cases v with
    | str u =>
      by_cases hu : trimL u = [] <;> simp [Event.construct, isValidTitleArg, hu]
    | date d => simp [Event.construct, isValidTitleArg]
    | other => simp [Event.construct, isValidTitleArg]

/-- C9 (witness): the title `" A"` — non-empty after trimming but carrying
leading whitespace — is accepted and stored with its whitespace intact by
both the constructor and the setter. -/
theorem C9_title_stored_untrimmed_witness :
    Event.construct 9 (.str [' ', 'A']) (.date ⟨some 0⟩) [] =
      .ok ⟨9, [' ', 'A'], 0, []⟩ ∧
    (evC3.setTitle (.str [' ', 'A'])).2.title = [' ', 'A'] := by
  have h := C9_title_stored_untrimmed 9 [' ', 'A'] 0 [] evC3 .other
  exact ⟨h.1 (by decide), (h.2.1 (by decide)).2⟩

/-- C10: the state-passing translations of the five query operations return
the scheduler exactly as it was — `Array.from` copies the values, the sort
and filters act on those fresh arrays, and `#events` is never written — and
their results are the pure functions of the mapping used throughout this
development. -/
theorem C10_queries_leave_state_unchanged (s : EventScheduler) (v w : JSVal) :
    (s.getAllEventsS.2 = s ∧ s.getAllEventsS.1 = s.getAllEvents) ∧
    ((s.getEventsOnDateS v).2 = s ∧
      (s.getEventsOnDateS v).1 = s.getEventsOnDate v) ∧
    ((s.findEventsByTitleS w).2 = s ∧
      (s.findEventsByTitleS w).1 = s.findEventsByTitle w) ∧
    (s.getTotalEventsS.2 = s ∧ s.getTotalEventsS.1 = s.getTotalEvents) ∧
    (s.getAllAttendeesS.2 = s ∧ s.getAllAttendeesS.1 = s.getAllAttendees) :=
  ⟨⟨rfl, rfl⟩, ⟨rfl, rfl⟩, ⟨rfl, rfl⟩, ⟨rfl, rfl⟩, ⟨rfl, rfl⟩⟩
